import Mathlib

/-!
# Verification of the production-plan Excel synthesis engine

Shallow embedding of the schedule builder, target-distribution algorithm and
workbook-structure generator of this repository (`src/utils/excelGenerator.ts`,
exporting `getColumnLetter`, `sanitizeSheetName` and `generateExcelFile`; the
dashboard sheet builder, absent from that module, is embedded from the inline
`generateExcelFile` of `src/components/ProductionPlanMaker.tsx`).

Modelling conventions:
* JavaScript numbers are modelled by `ℚ` (the engine's arithmetic is exact on
  the rationals it manipulates).
* Calendar dates are modelled by integer day numbers (days since the epoch);
  `new Date(string)` parsing is modelled by an explicit `parse` function
  passed to `generateExcelFile`, `none` standing for an invalid date.
* A JavaScript object's dynamic per-column properties are modelled by an
  association list; `undefined`/`null` are both modelled by `Option.none`.
-/

namespace ProdPlan

/-- Source function `getColumnLetter`: converts a 1-based column index to a
spreadsheet column letter (26-adic, bijective base 26). -/
def getColumnLetter (colIndex : ℕ) : String :=
  if h : colIndex = 0 then ""
  else
    let temp := (colIndex - 1) % 26
    getColumnLetter ((colIndex - temp) / 26) ++ String.mk [Char.ofNat (65 + temp)]
termination_by colIndex
decreasing_by
  have h1 : 0 < colIndex := Nat.pos_of_ne_zero h
  calc (colIndex - (colIndex - 1) % 26) / 26 ≤ colIndex / 26 :=
        Nat.div_le_div_right (Nat.sub_le _ _)
    _ < colIndex := Nat.div_lt_self h1 (by norm_num)

/-- The characters stripped by `sanitizeSheetName` (the source regex
`/[\[\]\:\*\?\/\\]/g`). -/
def illegalChars : List Char := ['[', ']', ':', '*', '?', '/', '\\']

/-- Source function `sanitizeSheetName`:
`name.replace(/[\[\]\:\*\?\/\\]/g, '').substring(0, 31)`. -/
def sanitizeSheetName (name : String) : String :=
  String.mk ((name.data.filter (fun c => !(illegalChars.contains c))).take 31)

/-! ## Target-distribution engine -/

/-- The normalized position `t = index / (totalItems - 1 || 1)` of the source
(the `|| 1` guards the division by zero when the schedule has one item;
in the source `totalItems = 0` never reaches this expression because the
weight map runs over an empty list). -/
def tPos (totalItems index : ℕ) : ℚ :=
  (index : ℚ) / (if totalItems - 1 = 0 then 1 else ((totalItems - 1 : ℕ) : ℚ))

/-- The 3-phase piecewise-linear weight curve of the source
(`LPB Target Distribution Logic`). -/
def weightCurve (t : ℚ) : ℚ :=
  if t < 0.25 then 0.3 + (0.6 - 0.3) * (t / 0.25)
  else if t < 0.75 then 0.6 + (1.0 - 0.6) * ((t - 0.25) / 0.5)
  else 1.0

/-- The per-item weights of a schedule of length `totalItems`
(`scheduleItems.map((_, index) => ...)` in the source). -/
def weights (totalItems : ℕ) : List ℚ :=
  (List.range totalItems).map (fun index => weightCurve (tPos totalItems index))

/-- Source expression `weights.reduce((sum, w) => sum + w, 0)`. -/
def totalWeight (totalItems : ℕ) : ℚ := (weights totalItems).sum

/-- The target of the item at `index`:
`(weights[index] / totalWeight) * projectData.goal`. -/
def target (totalItems : ℕ) (goal : ℚ) (index : ℕ) : ℚ :=
  weightCurve (tPos totalItems index) / totalWeight totalItems * goal

/-- The targets of all items, in sequence order (the `target` fields of
`itemsWithTargets` in the source). -/
def targets (totalItems : ℕ) (goal : ℚ) : List ℚ :=
  (List.range totalItems).map (target totalItems goal)

/-! ### Weight-curve lemmas -/

theorem weightCurve_lower {t : ℚ} (ht : 0 ≤ t) : 0.3 ≤ weightCurve t := by
  unfold weightCurve
  split_ifs with h1 h2 <;> norm_num at * <;> nlinarith

theorem weightCurve_upper (t : ℚ) : weightCurve t ≤ 1.0 := by
  unfold weightCurve
  split_ifs with h1 h2 <;> norm_num at * <;> nlinarith

theorem weightCurve_mono {a b : ℚ} (hab : a ≤ b) :
    weightCurve a ≤ weightCurve b := by
  unfold weightCurve
  split_ifs <;> norm_num at * <;> nlinarith

theorem tPos_nonneg (N i : ℕ) : 0 ≤ tPos N i := by
  unfold tPos
  split_ifs with h
  · positivity
  · have : (0 : ℚ) < ((N - 1 : ℕ) : ℚ) := by
      exact_mod_cast Nat.pos_of_ne_zero h
    positivity

theorem tPos_le_one {N i : ℕ} (hi : i < N) : tPos N i ≤ 1 := by
  unfold tPos
  split_ifs with h
  · have hiz : i = 0 := by omega
    simp [hiz]
  · have hd : (0 : ℚ) < ((N - 1 : ℕ) : ℚ) := by
      exact_mod_cast Nat.pos_of_ne_zero h
    rw [div_le_one hd]
    exact_mod_cast (by omega : i ≤ N - 1)

theorem tPos_mono {N i j : ℕ} (hij : i ≤ j) : tPos N i ≤ tPos N j := by
  unfold tPos
  have hij' : (i : ℚ) ≤ (j : ℚ) := by exact_mod_cast hij
  split_ifs with h
  · exact (div_le_div_iff_of_pos_right one_pos).mpr hij'
  · have hd : (0 : ℚ) < ((N - 1 : ℕ) : ℚ) := by
      exact_mod_cast Nat.pos_of_ne_zero h
    exact (div_le_div_iff_of_pos_right hd).mpr hij'

theorem weights_length (N : ℕ) : (weights N).length = N := by
  simp [weights]

theorem weights_getElem? {N i : ℕ} (hi : i < N) :
    (weights N)[i]? = some (weightCurve (tPos N i)) := by
  simp [weights, List.getElem?_range hi]

theorem totalWeight_pos {N : ℕ} (hN : 1 ≤ N) : 0 < totalWeight N := by
  apply List.sum_pos
  · intro x hx
    simp only [weights, List.mem_map, List.mem_range] at hx
    obtain ⟨i, _, rfl⟩ := hx
    have := weightCurve_lower (tPos_nonneg N i)
    linarith
  · have : (weights N).length = N := weights_length N
    intro hnil
    rw [hnil] at this
    simp at this
    omega

theorem targets_sum {N : ℕ} (hN : 1 ≤ N) (goal : ℚ) :
    (targets N goal).sum = goal := by
  have hW : totalWeight N ≠ 0 := ne_of_gt (totalWeight_pos hN)
  have hfun : target N goal
      = fun index => weightCurve (tPos N index) * (goal / totalWeight N) := by
    funext index
    unfold target
    field_simp
  unfold targets
  rw [hfun, List.sum_map_mul_right]
  show totalWeight N * (goal / totalWeight N) = goal
  field_simp

/-! ## Claims about the target-distribution engine -/

/-- C1: for every schedule length `N ≥ 1` and every goal (positive, zero or
negative), the targets `target[i] = weight[i] / Σweight * goal` sum to exactly
`goal` in exact arithmetic; `goal = 0` yields all-zero targets and a negative
goal yields proportional negative targets. -/
theorem claim_C1 (N : ℕ) (hN : 1 ≤ N) (goal : ℚ) :
    (targets N goal).sum = goal
    ∧ (goal = 0 → ∀ x ∈ targets N goal, x = 0)
    ∧ (goal < 0 → ∀ x ∈ targets N goal, x < 0) := by
  refine ⟨targets_sum hN goal, ?_, ?_⟩
  · rintro rfl x hx
    simp only [targets, List.mem_map] at hx
    obtain ⟨i, _, rfl⟩ := hx
    unfold target
    exact mul_zero _
  · intro hg x hx
    simp only [targets, List.mem_map, List.mem_range] at hx
    obtain ⟨i, hi, rfl⟩ := hx
    unfold target
    have hw := weightCurve_lower (tPos_nonneg N i)
    have hW := totalWeight_pos hN
    have hpos : 0 < weightCurve (tPos N i) / totalWeight N := by
      apply div_pos _ hW
      norm_num at hw
      linarith
    exact mul_neg_of_pos_of_neg hpos hg

theorem claim_C1_witness :
    (targets 8 100).sum = 100 ∧ ∀ x ∈ targets 3 (-5), x < 0 :=
  ⟨(claim_C1 8 (by norm_num) 100).1,
   (claim_C1 3 (by norm_num) (-5)).2.2 (by norm_num)⟩

/-- C2: the weight of index `i` in a schedule of length `N` is
`weightCurve t` for the normalized position `t = i / (N-1)` (`t = 0` when
`N = 1`), with the ramp formula on `[0, 0.25)`, the growth formula on
`[0.25, 0.75)` and the constant `1.0` on `[0.75, 1.0]`; in particular the
weight at `t = 0` is `0.3`, at `t = 0.25` is `0.6`, and at `t = 0.75` and
`t = 1` is exactly `1.0`. -/
theorem claim_C2 (N i : ℕ) (hN : 1 ≤ N) (hi : i < N) :
    (2 ≤ N → tPos N i = (i : ℚ) / ((N : ℚ) - 1))
    ∧ (N = 1 → tPos N i = 0)
    ∧ (tPos N i < 0.25 → weightCurve (tPos N i) = 0.3 + 0.3 * (tPos N i / 0.25))
    ∧ (0.25 ≤ tPos N i → tPos N i < 0.75 →
        weightCurve (tPos N i) = 0.6 + 0.4 * ((tPos N i - 0.25) / 0.5))
    ∧ (0.75 ≤ tPos N i → tPos N i ≤ 1 → weightCurve (tPos N i) = 1.0)
    ∧ weightCurve 0 = 0.3 ∧ weightCurve 0.25 = 0.6 ∧ weightCurve 0.75 = 1.0
    ∧ weightCurve 1 = 1.0 := by
  refine ⟨?_, ?_, ?_, ?_, ?_, by norm_num [weightCurve], by norm_num [weightCurve],
    by norm_num [weightCurve], by norm_num [weightCurve]⟩
  · intro h2
    unfold tPos
    rw [if_neg (by omega)]
    congr 1
    push_cast [Nat.cast_sub (by omega : 1 ≤ N)]
    ring
  · intro h1
    subst h1
    unfold tPos
    have : i = 0 := by omega
    simp [this]
  · intro h
    unfold weightCurve
    rw [if_pos h]
    norm_num
  · intro h1 h2
    unfold weightCurve
    rw [if_neg (not_lt.mpr h1), if_pos h2]
    norm_num
  · intro h1 _
    unfold weightCurve
    rw [if_neg (by norm_num at h1 ⊢; linarith), if_neg (not_lt.mpr h1)]

theorem claim_C2_witness :
    weightCurve (tPos 9 1) = 0.3 + 0.3 * (tPos 9 1 / 0.25)
    ∧ weightCurve (tPos 9 4) = 0.6 + 0.4 * ((tPos 9 4 - 0.25) / 0.5)
    ∧ weightCurve (tPos 9 8) = 1.0 :=
  ⟨(claim_C2 9 1 (by norm_num) (by norm_num)).2.2.1 (by norm_num [tPos]),
   (claim_C2 9 4 (by norm_num) (by norm_num)).2.2.2.1
     (by norm_num [tPos]) (by norm_num [tPos]),
   (claim_C2 9 8 (by norm_num) (by norm_num)).2.2.2.2.1
     (by norm_num [tPos]) (by norm_num [tPos])⟩

/-- C4: in a schedule of length `N > 1`, the weight assigned to position `i`
is at most the weight assigned to position `j` whenever `i < j < N` (the
weight curve is non-decreasing in sequence position). -/
theorem claim_C4 (N i j : ℕ) (hN : 1 < N) (hij : i < j) (hj : j < N)
    (wi wj : ℚ) (hwi : (weights N)[i]? = some wi)
    (hwj : (weights N)[j]? = some wj) : wi ≤ wj := by
  rw [weights_getElem? (lt_trans hij hj)] at hwi
  rw [weights_getElem? hj] at hwj
  obtain rfl := Option.some.inj hwi
  obtain rfl := Option.some.inj hwj
  exact weightCurve_mono (tPos_mono (le_of_lt hij))

theorem claim_C4_witness :
    weightCurve (tPos 10 2) ≤ weightCurve (tPos 10 7) :=
  claim_C4 10 2 7 (by norm_num) (by norm_num) (by norm_num) _ _
    (weights_getElem? (by norm_num)) (weights_getElem? (by norm_num))

/-- C10: every position weight lies in `[0.3, 1.0]` (hence is nonzero), and
for a positive goal every target is strictly positive with any two targets
differing by at most a factor of `10/3`. -/
theorem claim_C10 (N i j : ℕ) (hN : 1 ≤ N) (hi : i < N) (hj : j < N)
    (goal : ℚ) (hg : 0 < goal) :
    (0.3 ≤ weightCurve (tPos N i) ∧ weightCurve (tPos N i) ≤ 1.0
      ∧ weightCurve (tPos N i) ≠ 0)
    ∧ 0 < target N goal i
    ∧ target N goal i ≤ 10 / 3 * target N goal j := by
  have hwl := weightCurve_lower (tPos_nonneg N i)
  have hwu := weightCurve_upper (tPos N i)
  have hwlj := weightCurve_lower (tPos_nonneg N j)
  have hW := totalWeight_pos hN
  have hwl' : (3 : ℚ) / 10 ≤ weightCurve (tPos N i) := by norm_num at hwl; linarith
  have hwlj' : (3 : ℚ) / 10 ≤ weightCurve (tPos N j) := by norm_num at hwlj; linarith
  have hwu' : weightCurve (tPos N i) ≤ 1 := by norm_num at hwu; linarith
  refine ⟨⟨hwl, hwu, by linarith⟩, ?_, ?_⟩
  · unfold target
    exact mul_pos (div_pos (by linarith) hW) hg
  · unfold target
    have h1 : weightCurve (tPos N i) * goal
        ≤ 10 / 3 * weightCurve (tPos N j) * goal := by nlinarith
    calc weightCurve (tPos N i) / totalWeight N * goal
        = weightCurve (tPos N i) * goal / totalWeight N := by ring
      _ ≤ 10 / 3 * weightCurve (tPos N j) * goal / totalWeight N :=
          (div_le_div_iff_of_pos_right hW).mpr h1
      _ = 10 / 3 * (weightCurve (tPos N j) / totalWeight N * goal) := by ring

theorem claim_C10_witness :
    0 < target 5 100 0 ∧ target 5 100 0 ≤ 10 / 3 * target 5 100 4 :=
  ⟨(claim_C10 5 0 4 (by norm_num) (by norm_num) (by norm_num) 100 (by norm_num)).2.1,
   (claim_C10 5 0 4 (by norm_num) (by norm_num) (by norm_num) 100 (by norm_num)).2.2⟩

/-- C9: `sanitizeSheetName` removes every occurrence of the characters
`/ \ : * ? [ ]` and truncates the result to at most 31 characters. -/
theorem claim_C9 (s : String) :
    (sanitizeSheetName s).data
        = (s.data.filter (fun c => !(illegalChars.contains c))).take 31
    ∧ (sanitizeSheetName s).length ≤ 31
    ∧ (∀ c ∈ (sanitizeSheetName s).data, c ∉ illegalChars) := by
  refine ⟨rfl, ?_, ?_⟩
  · show ((s.data.filter (fun c => !(illegalChars.contains c))).take 31).length ≤ 31
    rw [List.length_take]
    exact min_le_left _ _
  · intro c hc
    have hc' := List.mem_of_mem_take hc
    have hfilter := List.of_mem_filter hc'
    simp only [Bool.not_eq_true'] at hfilter
    simpa using hfilter

/-! ## Schedule expander -/

/-- A JavaScript value stored in a dynamic extra field of an
`ActualDataItem` (a number or a string). -/
inductive JSVal where
  | num (q : ℚ)
  | str (s : String)
deriving DecidableEq, Repr

/-- JavaScript truthiness of a `JSVal` (`0` and `""` are falsy). -/
def JSVal.truthy : JSVal → Bool
  | .num q => q != 0
  | .str s => s != ""

/-- An `ActualDataItem` record `{date, name, actual, ...extra}`. The `date`
string is modelled already parsed: `some d` is a valid date on calendar day
`d`, `none` an unparseable date string. The extra fields are modelled by an
association list. -/
structure ActualDataItem where
  date : Option ℤ
  name : String
  actual : ℚ
  extra : List (String × JSVal)
deriving DecidableEq, Repr

/-- A `DailyColumn` definition `{header, key, formula?}`. -/
structure DailyColumn where
  header : String
  key : String
  formula : Option String
deriving DecidableEq, Repr

/-- A derived schedule item. `extra` holds one entry per `dailyColumn` when
an actual-data match was found (the source only assigns those properties in
that case), otherwise it is empty (the properties stay `undefined`). -/
structure ScheduleItem where
  date : ℤ
  name : String
  actual : Option ℚ
  extra : List (String × Option JSVal)
deriving DecidableEq, Repr

/-- Function `eachDayOfInterval` of date-fns v4: every calendar day from `start` to
`end` inclusive; for a reversed interval (`end < start`) it does not throw
but returns the days in descending order. -/
def eachDayOfInterval (start stop : ℤ) : List ℤ :=
  if start ≤ stop then
    (List.range (stop - start + 1).toNat).map (fun i : ℕ => start + (i : ℤ))
  else
    ((List.range (start - stop + 1).toNat).map (fun i : ℕ => stop + (i : ℤ))).reverse

/-- JavaScript's `toLowerCase`, modelled character-wise. -/
def toLowerStr (s : String) : String := String.mk (s.data.map Char.toLower)

/-- The match predicate of the source:
`isValid(itemDate) && isSameDay(itemDate, day) && item.name.toLowerCase() === resource.toLowerCase()`. -/
def matchesOn (day : ℤ) (resource : String) (item : ActualDataItem) : Bool :=
  match item.date with
  | some d => d == day && toLowerStr item.name == toLowerStr resource
  | none => false

/-- Source expression `actualData.find(...) || null`: the first matching
actual-data item, if any. -/
def findActualMatch (actualData : Option (List ActualDataItem)) (day : ℤ)
    (resource : String) : Option ActualDataItem :=
  match actualData with
  | some l => l.find? (matchesOn day resource)
  | none => none

/-- Source expression `actualMatch![col.key] || null`: the property value if it
exists and is truthy, otherwise `null`. -/
def coerceFalsy : Option JSVal → Option JSVal
  | some v => if v.truthy then some v else none
  | none => none

/-- One iteration of the inner expansion loop of the source: builds the
schedule item for a `(day, resource)` pair. -/
def mkScheduleItem (dailyColumns : List DailyColumn)
    (actualData : Option (List ActualDataItem)) (day : ℤ)
    (resource : String) : ScheduleItem :=
  match findActualMatch actualData day resource with
  | some a =>
      { date := day, name := resource, actual := some a.actual,
        extra := dailyColumns.map
          (fun col => (col.key, coerceFalsy (a.extra.lookup col.key))) }
  | none => { date := day, name := resource, actual := none, extra := [] }

/-- The `scheduleItems` array of the source: for each day (outer loop) and
each resource (inner loop), one schedule item. -/
def expandSchedule (days : List ℤ) (resources : List String)
    (dailyColumns : List DailyColumn)
    (actualData : Option (List ActualDataItem)) : List ScheduleItem :=
  days.bind (fun day =>
    resources.map (fun resource =>
      mkScheduleItem dailyColumns actualData day resource))

/-! ### Expansion lemmas -/

theorem bind_const_length {α β : Type} (l : List α) (f : α → List β) (R : ℕ)
    (hf : ∀ a, (f a).length = R) : (l.bind f).length = l.length * R := by
  induction l with
  | nil => simp
  | cons a l ih =>
      simp only [List.cons_bind, List.length_append, List.length_cons, ih, hf a]
      ring

theorem bind_const_getElem? {α β : Type} (l : List α) (f : α → List β) (R : ℕ)
    (hf : ∀ a, (f a).length = R) (i j : ℕ) (hj : j < R) :
    (l.bind f)[i * R + j]? = (l[i]?).bind (fun a => (f a)[j]?) := by
  induction l generalizing i with
  | nil => simp
  | cons a l ih =>
      rcases i with _ | i
      · simp only [List.cons_bind, Nat.zero_mul, Nat.zero_add]
        rw [List.getElem?_append_left (by rw [hf a]; exact hj)]
        simp
      · simp only [List.cons_bind]
        rw [List.getElem?_append_right (by rw [hf a]; nlinarith)]
        have harith : (i + 1) * R + j - (f a).length = i * R + j := by
          rw [hf a]; ring_nf; omega
        rw [harith, ih i]
        simp

theorem eachDayOfInterval_length {s e : ℤ} (hse : s ≤ e) :
    (eachDayOfInterval s e).length = (e - s + 1).toNat := by
  simp [eachDayOfInterval, if_pos hse]

theorem eachDayOfInterval_getElem? {s e : ℤ} (hse : s ≤ e) {i : ℕ}
    (hi : i < (e - s + 1).toNat) :
    (eachDayOfInterval s e)[i]? = some (s + i) := by
  simp only [eachDayOfInterval, if_pos hse, List.getElem?_map,
    List.getElem?_range hi, Option.map]

/-- C3: for a valid inclusive range spanning `D` days and `R` resources, the
expanded schedule has exactly `D * R` items, ordered day-major,
resource-minor: the item at position `i * R + j` is the item for the `i`-th
day and the `j`-th resource. -/
theorem claim_C3 (s e : ℤ) (hse : s ≤ e) (resources : List String)
    (dailyColumns : List DailyColumn)
    (actualData : Option (List ActualDataItem)) :
    (expandSchedule (eachDayOfInterval s e) resources dailyColumns
        actualData).length = (e - s + 1).toNat * resources.length
    ∧ ∀ i j : ℕ, i < (e - s + 1).toNat → ∀ hj : j < resources.length,
        (expandSchedule (eachDayOfInterval s e) resources dailyColumns
            actualData)[i * resources.length + j]?
          = some (mkScheduleItem dailyColumns actualData (s + i)
              (resources.get ⟨j, hj⟩)) := by
  constructor
  · rw [expandSchedule,
      bind_const_length _ _ resources.length (fun a => List.length_map _ _),
      eachDayOfInterval_length hse]
  · intro i j hi hj
    rw [expandSchedule,
      bind_const_getElem? _ _ resources.length (fun a => List.length_map _ _) i j hj,
      eachDayOfInterval_getElem? hse hi]
    simp [List.getElem?_eq_getElem hj]

theorem claim_C3_witness :
    (expandSchedule (eachDayOfInterval 10 13) ["A", "B"] [] none).length = 4 * 2
    ∧ (expandSchedule (eachDayOfInterval 10 13) ["A", "B"] [] none)[2 * 2 + 1]?
        = some (mkScheduleItem [] none 12 "B") :=
  ⟨(claim_C3 10 13 (by norm_num) ["A", "B"] [] none).1,
   (claim_C3 10 13 (by norm_num) ["A", "B"] [] none).2 2 1 (by norm_num)
     (by norm_num)⟩

/-- C6 (amended): for each `(day, resource)` pair the expander selects the
first `actualData` item valid on the same calendar day whose name matches
case-insensitively; on a match the item's `actual` equals the matched
`actual` and each daily column carries the matched extra field value if that
value is truthy (`|| null` coerces falsy values such as `0` or `""` to
null), null when absent; with no match, `actual` and the extra fields are
null/absent. -/
theorem claim_C6 (dailyColumns : List DailyColumn)
    (actualData : List ActualDataItem) (day : ℤ) (resource : String) :
    (∀ a, actualData.find? (matchesOn day resource) = some a →
        (mkScheduleItem dailyColumns (some actualData) day resource).actual
            = some a.actual
        ∧ (mkScheduleItem dailyColumns (some actualData) day resource).extra
            = dailyColumns.map
                (fun col => (col.key, coerceFalsy (a.extra.lookup col.key))))
    ∧ (actualData.find? (matchesOn day resource) = none →
        (mkScheduleItem dailyColumns (some actualData) day resource).actual
            = none
        ∧ (mkScheduleItem dailyColumns (some actualData) day resource).extra
            = []) := by
  constructor
  · intro a ha
    simp [mkScheduleItem, findActualMatch, ha]
  · intro ha
    simp [mkScheduleItem, findActualMatch, ha]

/-- Witness for C6, the spec scenario: `actualData` has an item on day 19724
(2024-01-02) named `"a"` with `actual = 5`; the schedule item for
(19724, `"A"`) gets `actual = 5` by the case-insensitive match, and the item
for another day gets `actual = null`. -/
theorem claim_C6_witness :
    (mkScheduleItem [] (some [⟨some 19724, "a", 5, []⟩]) 19724 "A").actual
        = some 5
    ∧ (mkScheduleItem [] (some [⟨some 19724, "a", 5, []⟩]) 19723 "A").actual
        = none :=
  ⟨((claim_C6 [] [⟨some 19724, "a", 5, []⟩] 19724 "A").1
      ⟨some 19724, "a", 5, []⟩ (by decide)).1,
   ((claim_C6 [] [⟨some 19724, "a", 5, []⟩] 19723 "A").2 (by decide)).1⟩

/-- Counterexample to C6 as stated: a matched item whose extra field `"k"`
is present with value `0` does not propagate `0` to the schedule item — the
`|| null` coercion turns the falsy `0` into null. -/
theorem claim_C6_counterexample :
    ([⟨some 19724, "a", 5, [("k", JSVal.num 0)]⟩]
        : List ActualDataItem).find? (matchesOn 19724 "A")
      = some ⟨some 19724, "a", 5, [("k", JSVal.num 0)]⟩
    ∧ (⟨some 19724, "a", 5, [("k", JSVal.num 0)]⟩
        : ActualDataItem).extra.lookup "k" = some (JSVal.num 0)
    ∧ (mkScheduleItem [⟨"Extra", "k", none⟩]
        (some [⟨some 19724, "a", 5, [("k", JSVal.num 0)]⟩]) 19724 "A").extra
      = [("k", none)] := by
  refine ⟨by decide, by decide, by decide⟩

/-! ## Formula templates and `{rowIndex}` substitution -/

/-- Decimal digit characters of a natural number (JavaScript
`rowIndex.toString()`). -/
def natChars (n : ℕ) : List Char :=
  if n < 10 then [Char.ofNat (48 + n)]
  else natChars (n / 10) ++ [Char.ofNat (48 + n % 10)]
termination_by n
decreasing_by exact Nat.div_lt_self (by omega) (by norm_num)

/-- Source expression `rowIndex.toString()` as a string. -/
def natStr (n : ℕ) : String := String.mk (natChars n)

/-- The `{rowIndex}` placeholder, as a character list. -/
def placeholder : List Char := ['{', 'r', 'o', 'w', 'I', 'n', 'd', 'e', 'x', '}']

/-- Leftmost non-overlapping global replacement of `placeholder` by `repl`
(the semantics of `template.replace(/{rowIndex}/g, repl)`). -/
def replacePH (repl : List Char) : List Char → List Char
  | [] => []
  | c :: cs =>
    if placeholder.isPrefixOf (c :: cs) then
      repl ++ replacePH repl ((c :: cs).drop placeholder.length)
    else c :: replacePH repl cs
termination_by l => l.length
decreasing_by
  · simp [placeholder]
    omega
  · simp

/-- Source expression `formula.replace(/{rowIndex}/g, rowIndex.toString())`. -/
def substRowIndex (template : String) (rowIndex : ℕ) : String :=
  String.mk (replacePH (natChars rowIndex) template.data)

theorem natChars_ne_nil (n : ℕ) : natChars n ≠ [] := by
  rw [natChars]
  split_ifs <;> simp

theorem natChars_digit (n : ℕ) : ∀ c ∈ natChars n, c.isDigit = true := by
  induction n using natChars.induct with
  | case1 n h =>
      rw [natChars, if_pos h]
      intro c hc
      simp only [List.mem_singleton] at hc
      subst hc
      interval_cases n <;> decide
  | case2 n h ih =>
      rw [natChars, if_neg h]
      intro c hc
      rcases List.mem_append.mp hc with h1 | h2
      · exact ih c h1
      · simp only [List.mem_singleton] at h2
        subst h2
        have : n % 10 < 10 := Nat.mod_lt _ (by norm_num)
        interval_cases hm : (n % 10) <;> decide

theorem prefix_append_cases {α : Type} {t as bs : List α} (h : t <+: as ++ bs) :
    t <+: as ∨ ∃ u, t = as ++ u ∧ u <+: bs := by
  induction as generalizing t with
  | nil => exact Or.inr ⟨t, by simp, by simpa using h⟩
  | cons a as ih =>
      cases t with
      | nil => exact Or.inl List.nil_prefix
      | cons x t =>
          rw [List.cons_append, List.cons_prefix_cons] at h
          obtain ⟨rfl, ht⟩ := h
          rcases ih ht with h1 | ⟨u, rfl, hu⟩
          · exact Or.inl (List.cons_prefix_cons.mpr ⟨rfl, h1⟩)
          · exact Or.inr ⟨u, by simp, hu⟩

theorem infix_append_cases {α : Type} {s xs ys : List α} (h : s <:+: xs ++ ys) :
    s <:+: xs ∨ s <:+: ys ∨
    ∃ s₁ s₂, s = s₁ ++ s₂ ∧ s₁ ≠ [] ∧ s₁ <:+ xs ∧ s₂ <+: ys := by
  induction xs generalizing s with
  | nil => exact Or.inr (Or.inl (by simpa using h))
  | cons x xs ih =>
      rw [List.cons_append, List.infix_cons_iff] at h
      rcases h with h | h
      · cases s with
        | nil => exact Or.inl List.nil_infix
        | cons d s' =>
            rw [List.cons_prefix_cons] at h
            obtain ⟨rfl, hs⟩ := h
            rcases prefix_append_cases hs with h1 | ⟨u, rfl, hu⟩
            · exact Or.inl (List.cons_prefix_cons.mpr ⟨rfl, h1⟩).isInfix
            · rcases Classical.em (u = []) with rfl | hne
              · refine Or.inl ?_
                have : d :: (xs ++ []) = d :: xs := by simp
                rw [this]
              · exact Or.inr (Or.inr ⟨d :: xs, u, by simp, by simp,
                  List.suffix_refl (d :: xs), hu⟩)
      · rcases ih h with h1 | h2 | ⟨s₁, s₂, rfl, hne, hsuf, hpre⟩
        · exact Or.inl (h1.trans (List.infix_cons_iff.mpr (Or.inr (List.infix_refl xs))))
        · exact Or.inr (Or.inl h2)
        · exact Or.inr (Or.inr ⟨s₁, s₂, rfl, hne,
            hsuf.trans (List.suffix_cons x xs), hpre⟩)

theorem replacePH_liftPrefix {repl : List Char} (hne : repl ≠ [])
    (hdig : ∀ c ∈ repl, c.isDigit = true) :
    ∀ (cs : List Char) {s : List Char}, (∀ c ∈ s, c.isDigit = false) →
      s <+: replacePH repl cs → s <+: cs := by
  intro cs
  induction cs using replacePH.induct repl with
  | case1 =>
      intro s hs h
      rw [replacePH] at h
      simpa using h
  | case2 c cs hmatch ih =>
      intro s hs h
      rw [replacePH, if_pos hmatch] at h
      cases s with
      | nil => exact List.nil_prefix
      | cons d s' =>
          exfalso
          cases repl with
          | nil => exact hne rfl
          | cons r rs =>
              rw [List.cons_append, List.cons_prefix_cons] at h
              obtain ⟨rfl, -⟩ := h
              have h1 := hdig d (List.mem_cons_self d rs)
              have h2 := hs d (List.mem_cons_self d s')
              rw [h1] at h2
              simp at h2
  | case3 c cs hmatch ih =>
      intro s hs h
      rw [replacePH, if_neg hmatch] at h
      cases s with
      | nil => exact List.nil_prefix
      | cons d s' =>
          rw [List.cons_prefix_cons] at h
          obtain ⟨rfl, h'⟩ := h
          have hs' : ∀ ch ∈ s', ch.isDigit = false :=
            fun ch hch => hs ch (List.mem_cons_of_mem d hch)
          exact List.cons_prefix_cons.mpr ⟨rfl, ih hs' h'⟩

theorem placeholder_head_mem {s₁ s₂ : List Char} (heq : s₁ ++ s₂ = placeholder)
    (hne : s₁ ≠ []) : '{' ∈ s₁ := by
  cases s₁ with
  | nil => exact absurd rfl hne
  | cons c t =>
      have : c = '{' := by
        have := congrArg (fun l => l.head?) heq
        simpa [placeholder] using this
      subst this
      exact List.mem_cons_self _ _

/-- After global `{rowIndex}` replacement by a decimal number, no occurrence
of the placeholder remains anywhere in the result. -/
theorem replacePH_placeholderFree (r : ℕ) :
    ∀ cs : List Char, ¬ placeholder <:+: replacePH (natChars r) cs := by
  intro cs
  induction cs using replacePH.induct (natChars r) with
  | case1 =>
      rw [replacePH]
      intro h
      have := List.eq_nil_of_infix_nil h
      simp [placeholder] at this
  | case2 c cs hmatch ih =>
      rw [replacePH, if_pos hmatch]
      intro h
      rcases infix_append_cases h with h1 | h2 | ⟨s₁, s₂, heq, hne, hsuf, -⟩
      · have hmem : '{' ∈ natChars r := h1.subset (by decide)
        have := natChars_digit r '{' hmem
        simp at this
      · exact ih h2
      · have hmem : '{' ∈ natChars r := hsuf.subset (placeholder_head_mem heq.symm hne)
        have := natChars_digit r '{' hmem
        simp at this
  | case3 c cs hmatch ih =>
      rw [replacePH, if_neg hmatch]
      intro h
      rcases List.infix_cons_iff.mp h with h1 | h2
      · have hc : '{' = c
            ∧ ['r', 'o', 'w', 'I', 'n', 'd', 'e', 'x', '}']
                <+: replacePH (natChars r) cs := by
          rw [show placeholder = '{' :: ['r', 'o', 'w', 'I', 'n', 'd', 'e', 'x', '}']
              from rfl, List.cons_prefix_cons] at h1
          exact h1
        obtain ⟨heqc, htail⟩ := hc
        subst heqc
        have hlift := replacePH_liftPrefix (natChars_ne_nil r) (natChars_digit r)
          cs (s := ['r', 'o', 'w', 'I', 'n', 'd', 'e', 'x', '}']) (by decide) htail
        have hpre : placeholder.isPrefixOf ('{' :: cs) = true := by
          rw [List.isPrefixOf_iff_prefix]
          exact List.cons_prefix_cons.mpr ⟨rfl, hlift⟩
        rw [hpre] at hmatch
        simp at hmatch
      · exact ih h2

/-- No written formula coming out of `substRowIndex` still contains the
`{rowIndex}` placeholder. -/
theorem substRowIndex_no_placeholder (template : String) (rowIndex : ℕ) :
    ¬ placeholder <:+: (substRowIndex template rowIndex).data :=
  replacePH_placeholderFree rowIndex template.data

/-! ## Workbook model and sheet builders -/

/-- A cell value written by the generator: empty, a number, a string, a date,
a raw (possibly null) JavaScript value, or a live formula. -/
inductive Cell where
  | empty
  | num (q : ℚ)
  | str (s : String)
  | dateCell (d : ℤ)
  | jsval (v : Option JSVal)
  | formula (f : String)
deriving DecidableEq, Repr

/-- A worksheet: its (sanitized) name and its data rows, as built by the
corresponding sheet builder. -/
structure Sheet where
  name : String
  rows : List (List Cell)
deriving DecidableEq, Repr

/-- The workbook structure handed to the serializer. -/
structure Workbook where
  sheets : List Sheet
deriving DecidableEq, Repr

/-- Possible `section` values of a `ProjectColumn` (`'Target' | 'Actual' | 'Accumulative'`). -/
inductive SectionKind where
  | target
  | actual
  | accumulative
deriving DecidableEq, Repr

/-- A `ProjectColumn` `{header, key, section, formula?, width?}` (the
`section` field is named `sec` because `section` is a Lean keyword). -/
structure ProjectColumn where
  header : String
  key : String
  sec : SectionKind
  formula : Option String
  width : Option ℚ
deriving DecidableEq, Repr

/-- A pivot column `{header, formula}`. -/
structure PivotColumn where
  header : String
  formula : String
deriving DecidableEq, Repr

/-- A dashboard metric `{label, formula, format?}`. -/
structure DashboardMetric where
  label : String
  formula : String
  format : Option String
deriving DecidableEq, Repr

/-- The `ProjectData` input record. -/
structure ProjectData where
  name : String
  goal : ℚ
  unit : String
  startDate : String
  endDate : String
  resources : List String
  actualData : Option (List ActualDataItem)
  columns : List ProjectColumn
  dailyColumns : List DailyColumn
  pivotColumns : Option (List PivotColumn)
  dashboardMetrics : Option (List DashboardMetric)
deriving DecidableEq, Repr

/-- One data row of the `DailyProductionTable` on the raw daily sheet; the
source computes `rowIndex = index + 2` (the table header occupies row 1).
A daily column with a `formula` template becomes a substituted formula
cell, otherwise the item's raw property value is written. -/
def rawRow (dailyColumns : List DailyColumn) (item : ScheduleItem)
    (index : ℕ) : List Cell :=
  let rowIndex := index + 2
  [Cell.dateCell item.date,
   Cell.formula ("TEXT(A" ++ natStr rowIndex ++ ", \"dddd\")"),
   Cell.formula ("WEEKNUM(A" ++ natStr rowIndex ++ ")"),
   Cell.formula ("TEXT(A" ++ natStr rowIndex ++ ", \"mmmm\")"),
   Cell.str item.name]
  ++ dailyColumns.map (fun col =>
      match col.formula with
      | some f => Cell.formula (substRowIndex f rowIndex)
      | none => Cell.jsval ((item.extra.lookup col.key).join))

/-- All data rows of the raw daily sheet
(`itemsWithTargets.map((item, index) => ...)`). -/
def rawSheetRows (dailyColumns : List DailyColumn)
    (items : List ScheduleItem) : List (List Cell) :=
  items.mapIdx (fun index item => rawRow dailyColumns item index)

/-- The built-in leading `Date` column of the Production Plan sheet. -/
def dateColumn : ProjectColumn :=
  { header := "Date", key := "date", sec := .target, formula := none,
    width := some 15 }

/-- The built-in leading `Month` column of the Production Plan sheet. -/
def monthColumn : ProjectColumn :=
  { header := "Month", key := "month", sec := .target, formula := none,
    width := some 15 }

/-- Source binding `dynamicColumns = [Date, Month, ...projectData.columns]`. -/
def dynamicColumns (columns : List ProjectColumn) : List ProjectColumn :=
  dateColumn :: monthColumn :: columns

/-- Source test `col.header.toLowerCase().includes('rate') || col.header.toLowerCase().includes('%')`. -/
def isRateHeader (header : String) : Bool :=
  decide ("rate".data <:+: (toLowerStr header).data)
    || decide ("%".data <:+: (toLowerStr header).data)

/-- Source binding `uniqueDates`: first the item dates are deduplicated
(`Array.from(new Set(...))`), then sorted ascending (ISO date strings sort
chronologically). Only the value set matters after sorting, so the sorted
output is independent of which duplicate occurrence the dedup keeps. -/
def uniqueDates (items : List ScheduleItem) : List ℤ :=
  ((items.map (fun s => s.date)).dedup).insertionSort (fun a b => a ≤ b)

/-- One data row of the Production Plan sheet; the source computes
`rowIndex = index + 5` (title row 1, section headers rows 2-3, column
headers row 4). -/
def planDataRow (columns : List ProjectColumn) (d : ℤ) (index : ℕ) : List Cell :=
  let rowIndex := index + 5
  (dynamicColumns columns).map (fun col =>
    if col.key = "date" then Cell.dateCell d
    else if col.key = "month" then
      Cell.formula ("TEXT(A" ++ natStr rowIndex ++ ", \"mmmm\")")
    else
      match col.formula with
      | some f => Cell.formula (substRowIndex f rowIndex)
      | none => Cell.empty)

/-- The Grand Total row at `totalRowIndex = uniqueDates.length + 5`: column 0
gets the label, a non-month non-rate column gets a `SUM` over its data
range, other columns stay empty. -/
def grandTotalRow (columns : List ProjectColumn) (numDates : ℕ) : List Cell :=
  let totalRowIndex := numDates + 5
  (dynamicColumns columns).mapIdx (fun colIdx col =>
    if colIdx = 0 then Cell.str "Grand Total"
    else if col.key != "month" && !(isRateHeader col.header) then
      Cell.formula ("SUM(" ++ getColumnLetter (colIdx + 1) ++ "5:"
        ++ getColumnLetter (colIdx + 1) ++ natStr (totalRowIndex - 1) ++ ")")
    else Cell.empty)

/-- All rows of the Production Plan sheet: one data row per unique date,
then the Grand Total row. -/
def planSheetRows (columns : List ProjectColumn)
    (items : List ScheduleItem) : List (List Cell) :=
  (uniqueDates items).mapIdx (fun index d => planDataRow columns d index)
  ++ [grandTotalRow columns (uniqueDates items).length]

/-- The built-in pivot columns used when `projectData.pivotColumns` is absent. -/
def defaultPivotColumns : List PivotColumn :=
  [{ header := "Total Target",
     formula := "SUMIFS(DailyProductionTable[Target], DailyProductionTable[Week], A{rowIndex})" },
   { header := "Total Actual",
     formula := "SUMIFS(DailyProductionTable[Actual], DailyProductionTable[Week], A{rowIndex})" },
   { header := "Total Variance",
     formula := "SUMIFS(DailyProductionTable[Variance], DailyProductionTable[Week], A{rowIndex})" },
   { header := "Cumulative Actual", formula := "SUM($D$2:D{rowIndex})" }]

/-- The week value the pivot builder computes for a schedule item:
`Math.ceil((item.date.getTime() - start.getTime()) / (7*24*60*60*1000)) + 1`
(the source comments that this offset-from-start index is an approximation
of the weekly list). Both dates are midnights, so the quotient is
`(d - start) / 7` and `⌈x⌉ = -⌊-x⌋` gives the integer form below. -/
def weekApproxNum (start d : ℤ) : ℤ := -(-(d - start) / 7) + 1

theorem weekApproxNum_eq_ceil (start d : ℤ) :
    weekApproxNum start d = ⌈((d - start : ℤ) : ℚ) / 7⌉ + 1 := by
  unfold weekApproxNum
  have hfl : (⌊-(((d - start : ℤ) : ℚ) / 7)⌋ : ℤ) = -(d - start) / 7 := by
    rw [show -(((d - start : ℤ) : ℚ) / 7) = ((-(d - start) : ℤ) : ℚ) / ((7 : ℕ) : ℚ) by
      push_cast; ring]
    exact Rat.floor_intCast_div_natCast (-(d - start)) 7
  have hceil : (⌈((d - start : ℤ) : ℚ) / 7⌉ : ℤ) = -⌊-(((d - start : ℤ) : ℚ) / 7)⌋ := by
    rw [Int.floor_neg]
    ring
  rw [hceil, hfl]

/-- Source binding `uniqueWeeks`: the distinct week values of the schedule, sorted
ascending (`.sort((a, b) => a - b)`). -/
def uniqueWeeks (start : ℤ) (items : List ScheduleItem) : List ℤ :=
  ((items.map (fun item => weekApproxNum start item.date)).dedup).insertionSort
    (fun a b => a ≤ b)

/-- One data row of the pivot sheet; the source computes `rIdx = idx + 2`
(the table header occupies row 1): the week number, a `VLOOKUP` month
formula, then one substituted formula per pivot column. -/
def pivotRow (pivotColumns : List PivotColumn) (week : ℤ) (idx : ℕ) : List Cell :=
  let rIdx := idx + 2
  [Cell.num (week : ℚ),
   Cell.formula ("VLOOKUP(A" ++ natStr rIdx
     ++ ", DailyProductionTable[[Week]:[Month]], 2, FALSE)")]
  ++ pivotColumns.map (fun col => Cell.formula (substRowIndex col.formula rIdx))

/-- All data rows of the pivot sheet: one per unique week, ascending. -/
def pivotSheetRows (pivotColumns : List PivotColumn) (start : ℤ)
    (items : List ScheduleItem) : List (List Cell) :=
  (uniqueWeeks start items).mapIdx
    (fun idx week => pivotRow pivotColumns week idx)

/-- The built-in dashboard metrics used when `projectData.dashboardMetrics`
is absent (from the dashboard builder of `ProductionPlanMaker.tsx`). -/
def defaultDashboardMetrics (goal : ℚ) : List DashboardMetric :=
  [{ label := "Overall Goal", formula := toString goal, format := none },
   { label := "Total Actual", formula := "SUM(DailyProductionTable[Actual])",
     format := none },
   { label := "Total Remaining", formula := "B3-B4", format := none },
   { label := "% Completion", formula := "B4/B3", format := some "0.00%" },
   { label := "Avg Daily Production",
     formula := "AVERAGE(DailyProductionTable[Actual])", format := none },
   { label := "Required Daily Production",
     formula := "IF(OR(B5<=0, COUNTBLANK(DailyProductionTable[Actual])=0), 0, B5 / COUNTBLANK(DailyProductionTable[Actual]))",
     format := none },
   { label := "Status",
     formula := "IF(B5<=0, \"Completed\", IF(B7>=AVERAGE(DailyProductionTable[Target]), \"On Track\", \"Behind\"))",
     format := none }]

/-- The dashboard sheet rows (`dashData.forEach((item, index) => ...)`,
placed at sheet row `index + 3`): the label and the metric's formula,
written verbatim — the dashboard builder performs no `{rowIndex}`
substitution. -/
def dashboardRows (metrics : List DashboardMetric) : List (List Cell) :=
  metrics.map (fun item => [Cell.str item.label, Cell.formula item.formula])

/-- The workbook built from parsed dates and the project data: the four
sheets in their deterministic order. -/
def buildWorkbook (start stop : ℤ) (pd : ProjectData) : Workbook :=
  let days := eachDayOfInterval start stop
  let scheduleItems := expandSchedule days pd.resources pd.dailyColumns pd.actualData
  { sheets :=
    [{ name := sanitizeSheetName "Daily_Production_Key",
       rows := rawSheetRows pd.dailyColumns scheduleItems },
     { name := sanitizeSheetName (pd.name ++ " Plan"),
       rows := planSheetRows pd.columns scheduleItems },
     { name := sanitizeSheetName "Production_Pivot",
       rows := pivotSheetRows (pd.pivotColumns.getD defaultPivotColumns)
         start scheduleItems },
     { name := sanitizeSheetName "Summary_Dashboard",
       rows := dashboardRows
         (pd.dashboardMetrics.getD (defaultDashboardMetrics pd.goal)) }] }

/-- Top-level `generateExcelFile`: parses the two dates, throws
`"Invalid dates provided"` when either is invalid, and otherwise builds the
workbook. The JavaScript `new Date(...)` parser is an explicit argument. -/
def generateExcelFile (parse : String → Option ℤ) (pd : ProjectData) :
    Except String Workbook :=
  match parse pd.startDate, parse pd.endDate with
  | some s, some e => Except.ok (buildWorkbook s e pd)
  | _, _ => Except.error "Invalid dates provided"

/-! ## ISO week number (spec notion, for comparison with the code) -/

/-- Modelled from the spec: the spec's pivot description refers to the "ISO
week number" of a date, a notion the repository's code never computes. This
and the next two definitions provide it for comparison. Standard
civil-from-days conversion (day 0 = 1970-01-01): returns `(year, month, day)`. -/
def civilFromDays (z : ℤ) : ℤ × ℤ × ℤ :=
  let zd := z + 719468
  let era := zd / 146097
  let doe := zd - era * 146097
  let yoe := (doe - doe / 1460 + doe / 36524 - doe / 146096) / 365
  let y := yoe + era * 400
  let doy := doe - (365 * yoe + yoe / 4 - yoe / 100)
  let mp := (5 * doy + 2) / 153
  let d := doy - (153 * mp + 2) / 5 + 1
  let m := if mp < 10 then mp + 3 else mp - 9
  (if m ≤ 2 then y + 1 else y, m, d)

/-- Modelled from the spec: days-from-civil conversion, inverse of
`civilFromDays`. -/
def daysFromCivil (y m d : ℤ) : ℤ :=
  let yy := if m ≤ 2 then y - 1 else y
  let era := yy / 400
  let yoe := yy - era * 400
  let mp := if 2 < m then m - 3 else m + 9
  let doy := (153 * mp + 2) / 5 + d - 1
  let doe := yoe * 365 + yoe / 4 - yoe / 100 + doy
  era * 146097 + doe - 719468

/-- Modelled from the spec: the ISO-8601 week number of the day `z` (weeks
run Monday-Sunday; a date's ISO week is determined by the Thursday of its
week, counted within that Thursday's year). -/
def isoWeekNumber (z : ℤ) : ℤ :=
  let thu := z - (z + 3) % 7 + 3
  let y := (civilFromDays thu).1
  let jan1 := daysFromCivil y 1 1
  (thu - jan1) / 7 + 1

/-! ## Claims about the workbook builders -/

theorem pivotSheetRows_length (pivotColumns : List PivotColumn) (start : ℤ)
    (items : List ScheduleItem) :
    (pivotSheetRows pivotColumns start items).length
      = (uniqueWeeks start items).length := by
  simp [pivotSheetRows]

/-- C8 (amended): the pivot sheet has exactly one data row per distinct
value of the week index `⌈(date - startDate) / 7 days⌉ + 1` occurring among
the schedule dates (an offset-from-start approximation, not the ISO week
number), in ascending order, with that value written in the row's first
(Week) column. -/
theorem claim_C8 (pivotColumns : List PivotColumn) (start : ℤ)
    (items : List ScheduleItem) :
    (pivotSheetRows pivotColumns start items).length
        = (uniqueWeeks start items).length
    ∧ (∀ w : ℤ, w ∈ uniqueWeeks start items ↔
        w ∈ items.map (fun item => weekApproxNum start item.date))
    ∧ (uniqueWeeks start items).Sorted (· ≤ ·)
    ∧ (uniqueWeeks start items).Nodup
    ∧ (∀ (i : ℕ) (w : ℤ), (uniqueWeeks start items)[i]? = some w →
        ((pivotSheetRows pivotColumns start items)[i]?.bind
          (fun row => row[0]?)) = some (Cell.num (w : ℚ))) := by
  refine ⟨pivotSheetRows_length pivotColumns start items, ?_, ?_, ?_, ?_⟩
  · intro w
    unfold uniqueWeeks
    rw [List.mem_insertionSort, List.mem_dedup]
  · exact List.sorted_insertionSort _ _
  · exact ((List.perm_insertionSort _ _).nodup_iff).mpr (List.nodup_dedup _)
  · intro i w hw
    unfold pivotSheetRows
    rw [List.getElem?_mapIdx, hw]
    simp [pivotRow]

theorem claim_C8_witness :
    (pivotSheetRows defaultPivotColumns 19723
        (expandSchedule (eachDayOfInterval 19723 19729) ["A"] [] none)).length
      = (uniqueWeeks 19723
          (expandSchedule (eachDayOfInterval 19723 19729) ["A"] [] none)).length
    ∧ ((pivotSheetRows defaultPivotColumns 19723
        (expandSchedule (eachDayOfInterval 19723 19729) ["A"] [] none))[0]?.bind
          (fun row => row[0]?)) = some (Cell.num ((1 : ℤ) : ℚ)) :=
  ⟨(claim_C8 defaultPivotColumns 19723 _).1,
   (claim_C8 defaultPivotColumns 19723 _).2.2.2.2 0 1 (by decide)⟩

/-- Counterexample to C8 as stated: the schedule for 2024-01-01 … 2024-01-07
(days 19723-19729, a single resource) lies entirely inside ISO week 1 of
2024 (one distinct ISO week number), yet the pivot sheet built by the code
has two data rows — the code's week index is the offset-from-start value
`⌈(date - start)/7⌉ + 1`, not the ISO week number. -/
theorem claim_C8_counterexample :
    (pivotSheetRows defaultPivotColumns 19723
        (expandSchedule (eachDayOfInterval 19723 19729) ["A"] [] none)).length = 2
    ∧ uniqueWeeks 19723
        (expandSchedule (eachDayOfInterval 19723 19729) ["A"] [] none) = [1, 2]
    ∧ (((expandSchedule (eachDayOfInterval 19723 19729) ["A"] [] none).map
          (fun item => isoWeekNumber item.date)).dedup) = [1] := by
  refine ⟨?_, by decide, by decide⟩
  rw [pivotSheetRows_length]
  decide

/-! ## Error handling (`generateExcelFile` date validation) -/

/-- A concrete date parser for witnesses: recognizes two ISO dates. -/
def demoParse : String → Option ℤ := fun s =>
  if s = "2024-01-01" then some 19723
  else if s = "2024-01-04" then some 19726
  else none

/-- A concrete project input whose start date does not parse. -/
def demoPD : ProjectData :=
  { name := "Demo", goal := 100, unit := "units",
    startDate := "not-a-date", endDate := "2024-01-01",
    resources := ["A"], actualData := none, columns := [],
    dailyColumns := [], pivotColumns := none, dashboardMetrics := none }

/-- A concrete project input whose end date precedes its start date. -/
def demoPDRev : ProjectData :=
  { demoPD with startDate := "2024-01-04", endDate := "2024-01-01" }

/-- Truth of a generation result being `Except.ok`. -/
def isOkResult : Except String Workbook → Bool
  | Except.ok _ => true
  | Except.error _ => false

/-- C5 (amended): if `startDate` or `endDate` fails to parse,
`generateExcelFile` throws the fixed error `"Invalid dates provided"` (a
message that does not name the failing field) before any sheet is built; a
range with `endDate` before `startDate` is NOT rejected — generation
proceeds over the reversed interval. -/
theorem claim_C5 (parse : String → Option ℤ) (pd : ProjectData)
    (h : parse pd.startDate = none ∨ parse pd.endDate = none) :
    generateExcelFile parse pd = Except.error "Invalid dates provided" := by
  rcases h with h | h
  · simp [generateExcelFile, h]
  · cases hs : parse pd.startDate <;> simp [generateExcelFile, h, hs]

theorem claim_C5_witness :
    generateExcelFile demoParse demoPD = Except.error "Invalid dates provided" :=
  claim_C5 demoParse demoPD (Or.inl (by decide))

/-- Counterexample to C5 as stated: with `startDate = 2024-01-04` and
`endDate = 2024-01-01` (end precedes start, both valid), the code raises no
error at all — it returns a workbook, built over the reversed day interval
`[19726, 19725, 19724, 19723]`. -/
theorem claim_C5_counterexample :
    isOkResult (generateExcelFile demoParse demoPDRev) = true
    ∧ eachDayOfInterval 19726 19723 = [19726, 19725, 19724, 19723] := by
  exact ⟨rfl, by decide⟩

/-! ## Formula substitution claim -/

/-- C7 (amended): every `{rowIndex}` placeholder in a daily-column, plan-
column or pivot-column formula template is replaced by the row number of the
cell's own sheet row (data index + 2 on the raw sheet, + 5 on the plan
sheet, + 2 on the pivot sheet) and no placeholder survives the substitution;
dashboard metric formulas, however, are written verbatim, without any
substitution. -/
theorem claim_C7 :
    (∀ (template : String) (rowIndex : ℕ),
        ¬ placeholder <:+: (substRowIndex template rowIndex).data)
    ∧ (∀ (dailyColumns : List DailyColumn) (items : List ScheduleItem)
        (i k : ℕ) (col : DailyColumn) (tpl : String),
        i < items.length → dailyColumns[k]? = some col →
        col.formula = some tpl →
        ((rawSheetRows dailyColumns items)[i]?.bind (fun row => row[5 + k]?))
          = some (Cell.formula (substRowIndex tpl (i + 2))))
    ∧ (∀ (columns : List ProjectColumn) (items : List ScheduleItem)
        (i k : ℕ) (col : ProjectColumn) (tpl : String),
        i < (uniqueDates items).length → columns[k]? = some col →
        col.key ≠ "date" → col.key ≠ "month" → col.formula = some tpl →
        ((planSheetRows columns items)[i]?.bind (fun row => row[2 + k]?))
          = some (Cell.formula (substRowIndex tpl (i + 5))))
    ∧ (∀ (pivotColumns : List PivotColumn) (start : ℤ)
        (items : List ScheduleItem) (i k : ℕ) (col : PivotColumn),
        i < (uniqueWeeks start items).length → pivotColumns[k]? = some col →
        ((pivotSheetRows pivotColumns start items)[i]?.bind
          (fun row => row[2 + k]?))
          = some (Cell.formula (substRowIndex col.formula (i + 2))))
    ∧ (∀ (metrics : List DashboardMetric) (i : ℕ) (m : DashboardMetric),
        metrics[i]? = some m →
        (dashboardRows metrics)[i]?
          = some [Cell.str m.label, Cell.formula m.formula]) := by
  refine ⟨substRowIndex_no_placeholder, ?_, ?_, ?_, ?_⟩
  · intro dailyColumns items i k col tpl hi hk hf
    unfold rawSheetRows
    rw [List.getElem?_mapIdx, List.getElem?_eq_getElem hi]
    unfold rawRow
    simp only [Option.map_some', Option.some_bind]
    rw [List.getElem?_append_right (by simp)]
    simp only [List.length_cons, List.length_nil]
    rw [show 5 + k - 5 = k by omega, List.getElem?_map, hk]
    simp [hf]
  · intro columns items i k col tpl hi hk hd hm hf
    unfold planSheetRows
    rw [List.getElem?_append_left (by simpa using hi),
      List.getElem?_mapIdx, List.getElem?_eq_getElem hi]
    unfold planDataRow dynamicColumns
    simp only [Option.map_some', Option.some_bind]
    rw [List.getElem?_map, show 2 + k = (k + 1) + 1 by omega,
      List.getElem?_cons_succ, List.getElem?_cons_succ, hk]
    simp [hd, hm, hf]
  · intro pivotColumns start items i k col hi hk
    unfold pivotSheetRows
    rw [List.getElem?_mapIdx, List.getElem?_eq_getElem hi]
    unfold pivotRow
    simp only [Option.map_some', Option.some_bind]
    rw [List.getElem?_append_right (by simp)]
    simp only [List.length_cons, List.length_nil]
    rw [show 2 + k - 2 = k by omega, List.getElem?_map, hk]
    simp
  · intro metrics i m hm
    unfold dashboardRows
    rw [List.getElem?_map, hm]
    simp

theorem claim_C7_witness :
    ((rawSheetRows [⟨"Output", "out", some "X{rowIndex}Y"⟩]
        (expandSchedule (eachDayOfInterval 19723 19724) ["A"]
          [⟨"Output", "out", some "X{rowIndex}Y"⟩] none))[1]?.bind
      (fun row => row[5 + 0]?))
      = some (Cell.formula (substRowIndex "X{rowIndex}Y" 3))
    ∧ substRowIndex "X{rowIndex}Y" 3 = "X3Y"
    ∧ ¬ placeholder <:+: (substRowIndex "X{rowIndex}Y" 3).data
    ∧ (dashboardRows [⟨"KPI", "SUM(A{rowIndex})", none⟩])[0]?
        = some [Cell.str "KPI", Cell.formula "SUM(A{rowIndex})"] :=
  ⟨claim_C7.2.1 _ _ 1 0 _ _ (by decide) rfl rfl,
   by simp +decide [substRowIndex, replacePH, natChars, placeholder],
   claim_C7.1 "X{rowIndex}Y" 3,
   claim_C7.2.2.2.2 _ 0 _ rfl⟩

/-- A concrete project over a single day whose dashboard metric formula
contains the `{rowIndex}` placeholder. -/
def demoPDDash : ProjectData :=
  { demoPD with
    startDate := "2024-01-01"
    endDate := "2024-01-01"
    dashboardMetrics := some [⟨"KPI", "SUM(A{rowIndex})", none⟩] }

/-- Counterexample to C7 as stated: the dashboard builder writes formula
templates verbatim, so a dashboard metric template containing `{rowIndex}`
reaches the workbook with the placeholder unsubstituted. -/
theorem claim_C7_counterexample :
    generateExcelFile demoParse demoPDDash
      = Except.ok (buildWorkbook 19723 19723 demoPDDash)
    ∧ ((buildWorkbook 19723 19723 demoPDDash).sheets[3]?.map Sheet.rows)
        = some [[Cell.str "KPI", Cell.formula "SUM(A{rowIndex})"]]
    ∧ placeholder <:+: "SUM(A{rowIndex})".data := by
  exact ⟨rfl, by decide, by decide⟩

theorem claim_C9_witness :
    (sanitizeSheetName
        (String.mk (['A'] ++ illegalChars ++ List.replicate 30 'B'))).length ≤ 31
    ∧ '[' ∉ (sanitizeSheetName
        (String.mk (['A'] ++ illegalChars ++ List.replicate 30 'B'))).data :=
  ⟨(claim_C9 _).2.1, fun h => (claim_C9 _).2.2 '[' h (by decide)⟩

end ProdPlan
